import Mathlib

/-!
Shallow embedding of the structured-control-flow lowering bookkeeping in
`src/runtime/vm/compiler/frontend/kernel_to_il.h` (kernel-to-IL translator):
the `Fragment` algebra and the five scoped chain records (`TryCatchBlock`,
`TryFinallyBlock`, `BreakableBlock`, `SwitchBlock`, `CatchBlock`) together
with break/switch destination resolution.

Modelling conventions:
* instruction pointers are identifiers (`Nat`), `NULL` is `Option.none`;
* the C++ chains of `outer_` pointers are modelled as lists whose head is
  the current top recorded in the builder; pushing a record is consing,
  and the destructor (which stores the saved `outer_` pointer back into
  the builder while the record is the top of the chain) is taking the tail;
* a run-time fault (failed `ASSERT`, or the null-pointer dereference that a
  chain walk running past the outermost record performs) is `Option.none`;
* reference equality of heap-allocated `JoinEntryInstr` nodes is equality
  of their allocated block ids, each allocation producing a fresh id.
-/

/-- `Fragment` (kernel_to_il.h lines 67-95): a run of instructions with an
`entry` pointer and a `current` (open exit) pointer, each possibly `NULL`. -/
structure Fragment where
  entry : Option Nat
  current : Option Nat
deriving DecidableEq

/-- `Fragment::is_open` (line 86): `entry == NULL || current != NULL`. -/
def Fragment.is_open (f : Fragment) : Bool :=
  f.entry.isNone || f.current.isSome

/-- `Fragment::is_closed` (line 87): `!is_open()`. -/
def Fragment.is_closed (f : Fragment) : Bool :=
  !f.is_open

/-- Modelled from the spec: the bodies of `Fragment::operator+=` (line 91)
and `operator+` (line 97) are defined in kernel_to_il.cc, which is not among
the sources. Per spec sections 3 and 4.1: concatenation requires the left
operand to be open, and a closed left operand is an error that must be
signalled (assertion failure, modelled as `none`); the empty fragment is a
no-op on either side; otherwise the open exit of the left operand is wired
to the entry of the right operand and the result keeps the left `entry`
and the right `current`. -/
def Fragment.append (a b : Fragment) : Option Fragment :=
  if a.is_closed then none
  else if a.entry.isNone then some b
  else if b.entry.isNone then some a
  else some { entry := a.entry, current := b.current }

/-- A `JoinEntryInstr*` as produced by `BaseFlowGraphBuilder::BuildJoinEntry`:
identified by its allocated block id, tagged with a try index. Two such
nodes are reference-equal exactly when their block ids coincide, because
every allocation yields a fresh id. -/
structure JoinEntryInstr where
  block_id : Int
  try_index : Int
deriving DecidableEq

/-- `TryCatchBlock` (lines 562-581), data fields only; the `outer_` link is
the tail of the chain list. -/
structure TryCatchBlock where
  try_index_ : Int
deriving DecidableEq

/-- `TryFinallyBlock` (lines 583-612), data fields only. -/
structure TryFinallyBlock where
  finalizer_kernel_offset_ : Int
  context_depth_ : Int
  try_depth_ : Int
  try_index_ : Int
deriving DecidableEq

/-- `TryFinallyBlock::finalizer_kernel_offset` accessor (line 599). -/
def TryFinallyBlock.finalizer_kernel_offset (t : TryFinallyBlock) : Int :=
  t.finalizer_kernel_offset_

/-- `TryFinallyBlock::context_depth` accessor (line 600). -/
def TryFinallyBlock.context_depth (t : TryFinallyBlock) : Int :=
  t.context_depth_

/-- `TryFinallyBlock::try_depth` accessor (line 601). -/
def TryFinallyBlock.try_depth (t : TryFinallyBlock) : Int :=
  t.try_depth_

/-- `TryFinallyBlock::try_index` accessor (line 602). -/
def TryFinallyBlock.try_index (t : TryFinallyBlock) : Int :=
  t.try_index_

/-- `BreakableBlock` (lines 614-664), data fields only. `outer_finally_`
is a pointer into the try-finally chain, modelled as the suffix of that
chain it points at (empty list is `NULL`). -/
structure BreakableBlock where
  index_ : Int
  destination_ : Option JoinEntryInstr
  outer_finally_ : List TryFinallyBlock
  context_depth_ : Int
  try_index_ : Int
deriving DecidableEq

/-- `SwitchBlock` (lines 481-560), data fields only. The `IntMap` of
destinations is an association list (later inserts shadow nothing because
`EnsureDestination` inserts a key at most once). -/
structure SwitchBlock where
  destinations_ : List (Int × JoinEntryInstr)
  outer_finally_ : List TryFinallyBlock
  case_count_ : Int
  depth_ : Int
  context_depth_ : Int
  try_index_ : Int
deriving DecidableEq

/-- `CatchBlock` (lines 666-691), data fields only; local variables are
identifiers. -/
structure CatchBlock where
  exception_var_ : Int
  stack_trace_var_ : Int
  catch_try_index_ : Int
deriving DecidableEq

/-- The builder state used by the chain records: the relevant fields of
`BaseFlowGraphBuilder` (lines 113-256) and `FlowGraphBuilder`
(lines 258-479). Each chain field holds the current top record first. -/
structure FlowGraphBuilder where
  context_depth_ : Int
  last_used_block_id_ : Int
  next_used_try_index_ : Int
  try_depth_ : Int
  try_catch_block_ : List TryCatchBlock
  breakable_block_ : List BreakableBlock
  switch_block_ : List SwitchBlock
  try_finally_block_ : List TryFinallyBlock
  catch_block_ : List CatchBlock
deriving DecidableEq

/-- Modelled from the spec: the body of
`BaseFlowGraphBuilder::CurrentTryIndex` (declared line 232) is in
kernel_to_il.cc. Per spec section 3, the try-index active at a point is the
index of the innermost active try region, an invalid index (-1) when none
is active; the chain lookup is done through `try_catch_block_`. -/
def FlowGraphBuilder.CurrentTryIndex (b : FlowGraphBuilder) : Int :=
  match b.try_catch_block_ with
  | [] => -1
  | t :: _ => t.try_index_

/-- `BaseFlowGraphBuilder::AllocateTryIndex` (line 213):
`return next_used_try_index_++;` — returns the old value. -/
def FlowGraphBuilder.AllocateTryIndex (b : FlowGraphBuilder) :
    Int × FlowGraphBuilder :=
  (b.next_used_try_index_,
   { b with next_used_try_index_ := b.next_used_try_index_ + 1 })

/-- Modelled from the spec: the body of
`BaseFlowGraphBuilder::BuildJoinEntry(try_index)` (declared line 178) is in
kernel_to_il.cc. Per spec sections 3 and 4.2, a join node is freshly
allocated (block id from `AllocateBlockId`, line 231:
`return ++last_used_block_id_;`) and tagged with the given try index.
The function takes and returns the block-id counter. -/
def BuildJoinEntry (last_used_block_id : Int) (try_index : Int) :
    JoinEntryInstr × Int :=
  ({ block_id := last_used_block_id + 1, try_index := try_index },
   last_used_block_id + 1)

/-- `TryCatchBlock::TryCatchBlock` (lines 564-571): records the handler
index, allocating a fresh try index when the caller passes -1, and pushes
itself as the current top of the try-catch chain. -/
def pushTryCatchBlock (b : FlowGraphBuilder) (try_handler_index : Int) :
    FlowGraphBuilder :=
  if try_handler_index = -1 then
    { b with
      next_used_try_index_ := b.next_used_try_index_ + 1,
      try_catch_block_ :=
        { try_index_ := b.next_used_try_index_ } :: b.try_catch_block_ }
  else
    { b with
      try_catch_block_ :=
        { try_index_ := try_handler_index } :: b.try_catch_block_ }

/-- `TryCatchBlock::~TryCatchBlock` (line 572): restores the saved outer
link, which while the record is the top of the chain is its tail. -/
def popTryCatchBlock (b : FlowGraphBuilder) : FlowGraphBuilder :=
  { b with try_catch_block_ := b.try_catch_block_.tail }

/-- `TryFinallyBlock::TryFinallyBlock` (lines 585-596): records the
finalizer kernel offset, the current context depth, a try depth one less
than the current try-nesting count, and the current try index, then pushes
itself onto the try-finally chain. -/
def pushTryFinallyBlock (b : FlowGraphBuilder)
    (finalizer_kernel_offset : Int) : FlowGraphBuilder :=
  { b with
    try_finally_block_ :=
      { finalizer_kernel_offset_ := finalizer_kernel_offset,
        context_depth_ := b.context_depth_,
        try_depth_ := b.try_depth_ - 1,
        try_index_ := b.CurrentTryIndex } :: b.try_finally_block_ }

/-- `TryFinallyBlock::~TryFinallyBlock` (line 597). -/
def popTryFinallyBlock (b : FlowGraphBuilder) : FlowGraphBuilder :=
  { b with try_finally_block_ := b.try_finally_block_.tail }

/-- `BreakableBlock::BreakableBlock` (lines 616-629): the new record gets
index 0 when no breakable block encloses it, otherwise one plus the index
of the current top, and is pushed onto the breakable chain. -/
def pushBreakableBlock (b : FlowGraphBuilder) : FlowGraphBuilder :=
  { b with
    breakable_block_ :=
      { index_ :=
          match b.breakable_block_ with
          | [] => 0
          | top :: _ => top.index_ + 1,
        destination_ := none,
        outer_finally_ := b.try_finally_block_,
        context_depth_ := b.context_depth_,
        try_index_ := b.CurrentTryIndex } :: b.breakable_block_ }

/-- `BreakableBlock::~BreakableBlock` (line 630). -/
def popBreakableBlock (b : FlowGraphBuilder) : FlowGraphBuilder :=
  { b with breakable_block_ := b.breakable_block_.tail }

/-- `SwitchBlock::SwitchBlock` (lines 483-496): the new record stores its
case count, the current context depth and try index, the current
try-finally chain pointer, and a cumulative depth offset —
`outer_->depth_ + outer_->case_count_` when an enclosing switch exists,
0 otherwise — and is pushed onto the switch chain. -/
def pushSwitchBlock (b : FlowGraphBuilder) (case_count : Int) :
    FlowGraphBuilder :=
  { b with
    switch_block_ :=
      { destinations_ := [],
        outer_finally_ := b.try_finally_block_,
        case_count_ := case_count,
        depth_ :=
          match b.switch_block_ with
          | [] => 0
          | outer :: _ => outer.depth_ + outer.case_count_,
        context_depth_ := b.context_depth_,
        try_index_ := b.CurrentTryIndex } :: b.switch_block_ }

/-- `SwitchBlock::~SwitchBlock` (line 497). -/
def popSwitchBlock (b : FlowGraphBuilder) : FlowGraphBuilder :=
  { b with switch_block_ := b.switch_block_.tail }

/-- `CatchBlock::CatchBlock` (lines 668-678). -/
def pushCatchBlock (b : FlowGraphBuilder)
    (exception_var stack_trace_var catch_try_index : Int) :
    FlowGraphBuilder :=
  { b with
    catch_block_ :=
      { exception_var_ := exception_var,
        stack_trace_var_ := stack_trace_var,
        catch_try_index_ := catch_try_index } :: b.catch_block_ }

/-- `CatchBlock::~CatchBlock` (line 679). -/
def popCatchBlock (b : FlowGraphBuilder) : FlowGraphBuilder :=
  { b with catch_block_ := b.catch_block_.tail }

/-- `BreakableBlock::EnsureDestination` (lines 650-655): lazily create the
shared join node on first use, caching it in `destination_`; return the
cached node afterwards. Threads the block-id allocation counter. -/
def BreakableBlock.EnsureDestination (blk : BreakableBlock)
    (last_used_block_id : Int) :
    JoinEntryInstr × BreakableBlock × Int :=
  match blk.destination_ with
  | some j => (j, blk, last_used_block_id)
  | none =>
      match BuildJoinEntry last_used_block_id blk.try_index_ with
      | (j, n) => (j, { blk with destination_ := some j }, n)

/-- The chain walk inside `BreakableBlock::BreakDestination`
(lines 636-647): starting from the innermost breakable record, walk the
`outer_` links while `index_ != label_index`; on the matching record,
return its lazily created join node, its recorded try-finally pointer and
context depth, and the updated chain and block-id counter. Walking past
the outermost record dereferences `NULL` in the loop header, a fault
(`none`); the subsequent `ASSERT(block != NULL)` is thereby unreachable. -/
def breakWalk (chain : List BreakableBlock) (label_index : Int)
    (last_used_block_id : Int) :
    Option (JoinEntryInstr × List TryFinallyBlock × Int ×
            List BreakableBlock × Int) :=
  match chain with
  | [] => none
  | blk :: rest =>
      if blk.index_ = label_index then
        match blk.EnsureDestination last_used_block_id with
        | (j, blk2, n) =>
            some (j, blk.outer_finally_, blk.context_depth_, blk2 :: rest, n)
      else
        match breakWalk rest label_index last_used_block_id with
        | none => none
        | some (j, f, d, rest2, n) => some (j, f, d, blk :: rest2, n)

/-- `BreakableBlock::BreakDestination` (lines 636-647), at the builder
level: the walk starts from `builder_->breakable_block_`; the out
parameters `*outer_finally` and `*context_depth` and the returned join
node are the middle components; the builder comes back with the updated
chain and block-id counter. -/
def BreakDestination (b : FlowGraphBuilder) (label_index : Int) :
    Option (JoinEntryInstr × List TryFinallyBlock × Int ×
            FlowGraphBuilder) :=
  match breakWalk b.breakable_block_ label_index b.last_used_block_id_ with
  | none => none
  | some (j, f, d, chain2, n) =>
      some (j, f, d,
            { b with breakable_block_ := chain2, last_used_block_id_ := n })

/-- One break resolution, keeping only the builder state (identity when
the resolution faults). Used to express repeated resolutions. -/
def breakStep (label_index : Int) (b : FlowGraphBuilder) :
    FlowGraphBuilder :=
  match BreakDestination b label_index with
  | some (_, _, _, b2) => b2
  | none => b

/-- The breakable record a given label index resolves to: the first record
of the chain whose `index_` matches. -/
def findBreakable (chain : List BreakableBlock) (label_index : Int) :
    Option BreakableBlock :=
  match chain with
  | [] => none
  | blk :: rest =>
      if blk.index_ = label_index then some blk
      else findBreakable rest label_index

/-- `IntMap<JoinEntryInstr*>::Lookup` over the association-list model. -/
def IntMapLookup (m : List (Int × JoinEntryInstr)) (key : Int) :
    Option JoinEntryInstr :=
  match m with
  | [] => none
  | (k, j) :: rest => if k = key then some j else IntMapLookup rest key

/-- `SwitchBlock::EnsureDestination` (lines 540-548): look the case number
up in the per-block destination map; on a miss allocate a fresh join node
tagged with the recorded try index and insert it. -/
def SwitchBlock.EnsureDestination (blk : SwitchBlock) (case_num : Int)
    (last_used_block_id : Int) : JoinEntryInstr × SwitchBlock × Int :=
  match IntMapLookup blk.destinations_ case_num with
  | some j => (j, blk, last_used_block_id)
  | none =>
      match BuildJoinEntry last_used_block_id blk.try_index_ with
      | (j, n) =>
          (j, { blk with destinations_ := (case_num, j) :: blk.destinations_ },
           n)

/-- `SwitchBlock::Destination` (lines 505-522): walk the `outer_` links
while `depth_ > target_index`; on the resolved block write its try-finally
pointer and context depth to the out parameters and ensure the join node
for the relative case number `target_index - depth_`. The head of the
chain plays the role of `this`. Walking past the outermost record is the
`NULL` dereference fault, `none`. -/
def SwitchBlock.Destination (chain : List SwitchBlock) (target_index : Int)
    (last_used_block_id : Int) :
    Option (JoinEntryInstr × List TryFinallyBlock × Int ×
            List SwitchBlock × Int) :=
  match chain with
  | [] => none
  | blk :: rest =>
      if blk.depth_ > target_index then
        match SwitchBlock.Destination rest target_index last_used_block_id
        with
        | none => none
        | some (j, f, d, rest2, n) => some (j, f, d, blk :: rest2, n)
      else
        match blk.EnsureDestination (target_index - blk.depth_)
            last_used_block_id with
        | (j, blk2, n) =>
            some (j, blk.outer_finally_, blk.context_depth_, blk2 :: rest, n)

/-- `SwitchBlock::DestinationDirect` (lines 526-537): resolve purely within
this block by relative case number; write this block's try-finally pointer
and context depth to the out parameters and ensure the join node for the
case. `blk` is `this`, `rest` the remainder of the chain. -/
def SwitchBlock.DestinationDirect (blk : SwitchBlock)
    (rest : List SwitchBlock) (case_num : Int) (last_used_block_id : Int) :
    JoinEntryInstr × List TryFinallyBlock × Int × List SwitchBlock × Int :=
  match blk.EnsureDestination case_num last_used_block_id with
  | (j, blk2, n) =>
      (j, blk.outer_finally_, blk.context_depth_, blk2 :: rest, n)

/-- Sum of the case counts of a list of switch records. -/
def sumCaseCounts (chain : List SwitchBlock) : Int :=
  match chain with
  | [] => 0
  | blk :: rest => blk.case_count_ + sumCaseCounts rest

/-- The cumulative-depth-offset invariant: every record of the switch chain
has `depth_` equal to the sum of the case counts of all records enclosing
it (the records after it in the list). -/
def switchDepthInv (chain : List SwitchBlock) : Prop :=
  match chain with
  | [] => True
  | blk :: rest => blk.depth_ = sumCaseCounts rest ∧ switchDepthInv rest

/-- The record the outer of two nested switch pushes produces on a builder
whose switch chain was empty. -/
def outerSwitchBlock (b : FlowGraphBuilder) (c0 : Int) : SwitchBlock :=
  { destinations_ := [],
    outer_finally_ := b.try_finally_block_,
    case_count_ := c0,
    depth_ := 0,
    context_depth_ := b.context_depth_,
    try_index_ := b.CurrentTryIndex }

/-- The record the inner of two nested switch pushes produces on a builder
whose switch chain was empty before the outer push. -/
def innerSwitchBlock (b : FlowGraphBuilder) (c0 c1 : Int) : SwitchBlock :=
  { destinations_ := [],
    outer_finally_ := b.try_finally_block_,
    case_count_ := c1,
    depth_ := c0,
    context_depth_ := b.context_depth_,
    try_index_ := b.CurrentTryIndex }

/-- A fresh builder, as set up by the `BaseFlowGraphBuilder` constructor
(lines 115-128) with `last_used_block_id = 0` and every chain empty. -/
def sampleBuilder : FlowGraphBuilder :=
  { context_depth_ := 0,
    last_used_block_id_ := 0,
    next_used_try_index_ := 0,
    try_depth_ := 0,
    try_catch_block_ := [],
    breakable_block_ := [],
    switch_block_ := [],
    try_finally_block_ := [],
    catch_block_ := [] }

/-- `sampleBuilder` after entering one breakable construct. -/
def sampleBreakable : FlowGraphBuilder :=
  pushBreakableBlock sampleBuilder

/-- The join node the first break resolution on `sampleBreakable`
allocates. -/
def sampleJoin : JoinEntryInstr :=
  { block_id := 1, try_index := -1 }

/-- `sampleBreakable` after that first break resolution: the join node is
cached in the record and the block-id counter has advanced. -/
def sampleBroken : FlowGraphBuilder :=
  { sampleBreakable with
    breakable_block_ :=
      [{ index_ := 0,
         destination_ := some sampleJoin,
         outer_finally_ := [],
         context_depth_ := 0,
         try_index_ := -1 }],
    last_used_block_id_ := 1 }

/-- C3: for every `Fragment` `f`, `is_open f` is true exactly when `entry`
is absent or `current` is present, `is_closed f` is true exactly when
`entry` is present and `current` is absent, and `is_closed` is the exact
negation of `is_open`. -/
theorem Fragment_open_closed_iff (f : Fragment) :
    (f.is_open = true ↔ (f.entry = none ∨ f.current ≠ none)) ∧
    (f.is_closed = true ↔ (f.entry ≠ none ∧ f.current = none)) ∧
    f.is_closed = !f.is_open := by
  rcases f with ⟨e, c⟩
  cases e <;> cases c <;>
    simp [Fragment.is_open, Fragment.is_closed]

/-- C4: concatenating any fragment onto a closed non-empty fragment is
rejected with an assertion-style fault (`none`); it never produces a
fragment. -/
theorem Fragment_append_closed_faults (a b : Fragment)
    (hclosed : a.is_closed = true) (hnonempty : a.entry ≠ none) :
    Fragment.append a b = none := by
  simp [Fragment.append, hclosed]

/-- Witness for C4 at a concrete closed non-empty fragment. -/
theorem Fragment_append_closed_faults_witness :
    Fragment.append { entry := some 0, current := none }
      { entry := some 1, current := some 1 } = none :=
  Fragment_append_closed_faults
    { entry := some 0, current := none }
    { entry := some 1, current := some 1 }
    (by decide) (by decide)

/-- C5: for fragments `a`, `b` with `a` open, concatenation succeeds and
yields the fragment with the entry of `a` and the current of `b`, the
empty fragment acting as a no-op on either side. -/
theorem Fragment_append_open_concat (a b : Fragment)
    (hopen : a.is_open = true) :
    (a.entry = none → Fragment.append a b = some b) ∧
    (a.entry ≠ none → b.entry = none → Fragment.append a b = some a) ∧
    (a.entry ≠ none → b.entry ≠ none →
      Fragment.append a b = some { entry := a.entry, current := b.current })
    := by
  rcases a with ⟨ae, ac⟩
  rcases b with ⟨be, bc⟩
  cases ae <;> cases be <;>
    simp_all [Fragment.append, Fragment.is_open, Fragment.is_closed]

/-- Witness for C5 at concrete open fragments. -/
theorem Fragment_append_open_concat_witness :
    Fragment.append { entry := some 0, current := some 2 }
        { entry := some 3, current := some 4 } =
      some { entry := some 0, current := some 4 } :=
  (Fragment_append_open_concat
      { entry := some 0, current := some 2 }
      { entry := some 3, current := some 4 }
      (by decide)).2.2 (by decide) (by decide)

/-- C6: constructing a `TryFinallyBlock` records the finalizer kernel
offset, the context depth at entry, the try index active at entry, and a
try depth equal to the current try-nesting count minus one; the record is
exactly these values (immutable in this model) and the accessors return
them unchanged. -/
theorem TryFinallyBlock_records_entry_state (b : FlowGraphBuilder)
    (off : Int) :
    (pushTryFinallyBlock b off).try_finally_block_ =
      { finalizer_kernel_offset_ := off,
        context_depth_ := b.context_depth_,
        try_depth_ := b.try_depth_ - 1,
        try_index_ := b.CurrentTryIndex } :: b.try_finally_block_ ∧
    TryFinallyBlock.finalizer_kernel_offset
      { finalizer_kernel_offset_ := off,
        context_depth_ := b.context_depth_,
        try_depth_ := b.try_depth_ - 1,
        try_index_ := b.CurrentTryIndex } = off ∧
    TryFinallyBlock.context_depth
      { finalizer_kernel_offset_ := off,
        context_depth_ := b.context_depth_,
        try_depth_ := b.try_depth_ - 1,
        try_index_ := b.CurrentTryIndex } = b.context_depth_ ∧
    TryFinallyBlock.try_depth
      { finalizer_kernel_offset_ := off,
        context_depth_ := b.context_depth_,
        try_depth_ := b.try_depth_ - 1,
        try_index_ := b.CurrentTryIndex } = b.try_depth_ - 1 ∧
    TryFinallyBlock.try_index
      { finalizer_kernel_offset_ := off,
        context_depth_ := b.context_depth_,
        try_depth_ := b.try_depth_ - 1,
        try_index_ := b.CurrentTryIndex } = b.CurrentTryIndex := by
  refine ⟨rfl, rfl, rfl, rfl, rfl⟩

/-- C7: for each of the five chain record types, construction pushes the
new record as the current top with its outer link (the tail) equal to the
previous top, and destruction restores the chain to exactly its value
before construction. -/
theorem chain_push_pop_restores (b : FlowGraphBuilder)
    (thi off cc ev sv cti : Int) :
    ((∃ r, (pushTryCatchBlock b thi).try_catch_block_ =
        r :: b.try_catch_block_) ∧
      (popTryCatchBlock (pushTryCatchBlock b thi)).try_catch_block_ =
        b.try_catch_block_) ∧
    ((∃ r, (pushTryFinallyBlock b off).try_finally_block_ =
        r :: b.try_finally_block_) ∧
      (popTryFinallyBlock (pushTryFinallyBlock b off)).try_finally_block_ =
        b.try_finally_block_) ∧
    ((∃ r, (pushBreakableBlock b).breakable_block_ =
        r :: b.breakable_block_) ∧
      (popBreakableBlock (pushBreakableBlock b)).breakable_block_ =
        b.breakable_block_) ∧
    ((∃ r, (pushSwitchBlock b cc).switch_block_ =
        r :: b.switch_block_) ∧
      (popSwitchBlock (pushSwitchBlock b cc)).switch_block_ =
        b.switch_block_) ∧
    ((∃ r, (pushCatchBlock b ev sv cti).catch_block_ =
        r :: b.catch_block_) ∧
      (popCatchBlock (pushCatchBlock b ev sv cti)).catch_block_ =
        b.catch_block_) := by
  refine ⟨⟨?_, ?_⟩, ⟨?_, ?_⟩, ⟨?_, ?_⟩, ⟨?_, ?_⟩, ⟨?_, ?_⟩⟩
  · by_cases h : thi = -1 <;>
      simp [pushTryCatchBlock, h]
  · by_cases h : thi = -1 <;>
      simp [pushTryCatchBlock, popTryCatchBlock, h]
  · exact ⟨_, rfl⟩
  · rfl
  · exact ⟨_, rfl⟩
  · rfl
  · exact ⟨_, rfl⟩
  · rfl
  · exact ⟨_, rfl⟩
  · rfl

/-- C8: a newly constructed `BreakableBlock` gets label index 0 when the
builder has no enclosing breakable block, and one plus the index of the
nearest enclosing breakable block otherwise. -/
theorem BreakableBlock_label_index (b : FlowGraphBuilder) :
    (b.breakable_block_ = [] →
      (pushBreakableBlock b).breakable_block_.map BreakableBlock.index_ =
        [0]) ∧
    (∀ top rest, b.breakable_block_ = top :: rest →
      (pushBreakableBlock b).breakable_block_.map BreakableBlock.index_ =
        (top.index_ + 1) :: (top :: rest).map BreakableBlock.index_) := by
  constructor
  · intro h
    simp [pushBreakableBlock, h]
  · intro top rest h
    simp [pushBreakableBlock, h]

/-- Witness for C8: label indices on concrete builders with no enclosing
breakable block and with one enclosing breakable block of index 0. -/
theorem BreakableBlock_label_index_witness :
    (pushBreakableBlock sampleBuilder).breakable_block_.map
        BreakableBlock.index_ = [0] ∧
    (pushBreakableBlock sampleBreakable).breakable_block_.map
        BreakableBlock.index_ = [1, 0] := by
  constructor
  · exact (BreakableBlock_label_index sampleBuilder).1 rfl
  · have h := (BreakableBlock_label_index sampleBreakable).2
      { index_ := 0, destination_ := none, outer_finally_ := [],
        context_depth_ := 0, try_index_ := -1 } [] (by decide)
    simpa using h

theorem breakWalk_stable (L : Int) :
    ∀ (chain : List BreakableBlock) (lastId : Int) (j : JoinEntryInstr)
      (f : List TryFinallyBlock) (d : Int) (chain2 : List BreakableBlock)
      (n : Int),
      breakWalk chain L lastId = some (j, f, d, chain2, n) →
      breakWalk chain2 L n = some (j, f, d, chain2, n) := by
  intro chain
  induction chain with
  | nil =>
      intro lastId j f d chain2 n h
      simp [breakWalk] at h
  | cons blk rest ih =>
      intro lastId j f d chain2 n h
      by_cases hidx : blk.index_ = L
      · cases hdest : blk.destination_ with
        | some j0 =>
            simp [breakWalk, BreakableBlock.EnsureDestination, hidx,
              hdest] at h
            obtain ⟨hj, hf, hd, hc, hn⟩ := h
            subst hj hf hd hc hn
            simp [breakWalk, BreakableBlock.EnsureDestination, hidx, hdest]
        | none =>
            simp [breakWalk, BreakableBlock.EnsureDestination, hidx, hdest,
              BuildJoinEntry] at h
            obtain ⟨hj, hf, hd, hc, hn⟩ := h
            subst hj hf hd hc hn
            simp [breakWalk, BreakableBlock.EnsureDestination, hidx,
              BuildJoinEntry]
      · cases hrec : breakWalk rest L lastId with
        | none =>
            simp [breakWalk, hidx, hrec] at h
        | some val =>
            obtain ⟨j2, f2, d2, rest2, n2⟩ := val
            simp [breakWalk, hidx, hrec] at h
            obtain ⟨hj, hf, hd, hc, hn⟩ := h
            subst hj hf hd hc hn
            have hrec2 := ih lastId j2 f2 d2 rest2 n2 hrec
            simp [breakWalk, hidx, hrec2]

theorem breakWalk_cached (L : Int) :
    ∀ (chain : List BreakableBlock) (lastId : Int) (j : JoinEntryInstr)
      (f : List TryFinallyBlock) (d : Int) (chain2 : List BreakableBlock)
      (n : Int),
      breakWalk chain L lastId = some (j, f, d, chain2, n) →
      ∃ blk2, findBreakable chain2 L = some blk2 ∧
        blk2.destination_ = some j := by
  intro chain
  induction chain with
  | nil =>
      intro lastId j f d chain2 n h
      simp [breakWalk] at h
  | cons blk rest ih =>
      intro lastId j f d chain2 n h
      by_cases hidx : blk.index_ = L
      · cases hdest : blk.destination_ with
        | some j0 =>
            simp [breakWalk, BreakableBlock.EnsureDestination, hidx,
              hdest] at h
            obtain ⟨hj, hf, hd, hc, hn⟩ := h
            subst hj hc
            exact ⟨blk, by simp [findBreakable, hidx], hdest⟩
        | none =>
            simp [breakWalk, BreakableBlock.EnsureDestination, hidx, hdest,
              BuildJoinEntry] at h
            obtain ⟨hj, hf, hd, hc, hn⟩ := h
            subst hj hc
            refine ⟨{ index_ := L,
                      destination_ :=
                        some { block_id := lastId + 1,
                               try_index := blk.try_index_ },
                      outer_finally_ := blk.outer_finally_,
                      context_depth_ := blk.context_depth_,
                      try_index_ := blk.try_index_ }, ?_, rfl⟩
            simp [findBreakable, hidx]
      · cases hrec : breakWalk rest L lastId with
        | none =>
            simp [breakWalk, hidx, hrec] at h
        | some val =>
            obtain ⟨j2, f2, d2, rest2, n2⟩ := val
            simp [breakWalk, hidx, hrec] at h
            obtain ⟨hj, hf, hd, hc, hn⟩ := h
            subst hj hc
            obtain ⟨blk2, hfind, hdst⟩ := ih lastId j2 f2 d2 rest2 n2 hrec
            exact ⟨blk2, by simp [findBreakable, hidx, hfind], hdst⟩

theorem breakWalk_creation (L : Int) :
    ∀ (chain : List BreakableBlock) (lastId : Int) (j : JoinEntryInstr)
      (f : List TryFinallyBlock) (d : Int) (chain2 : List BreakableBlock)
      (n : Int) (blk0 : BreakableBlock),
      breakWalk chain L lastId = some (j, f, d, chain2, n) →
      findBreakable chain L = some blk0 →
      (blk0.destination_ = none →
        j = { block_id := lastId + 1, try_index := blk0.try_index_ }) ∧
      (∀ j0, blk0.destination_ = some j0 → j = j0) := by
  intro chain
  induction chain with
  | nil =>
      intro lastId j f d chain2 n blk0 h
      simp [breakWalk] at h
  | cons blk rest ih =>
      intro lastId j f d chain2 n blk0 h hfind
      by_cases hidx : blk.index_ = L
      · simp [findBreakable, hidx] at hfind
        subst hfind
        cases hdest : blk.destination_ with
        | some j0 =>
            simp [breakWalk, BreakableBlock.EnsureDestination, hidx,
              hdest] at h
            obtain ⟨hj, hf, hd, hc, hn⟩ := h
            subst hj
            constructor
            · intro hcon
              simp at hcon
            · intro j1 hj1
              simpa using hj1
        | none =>
            simp [breakWalk, BreakableBlock.EnsureDestination, hidx, hdest,
              BuildJoinEntry] at h
            obtain ⟨hj, hf, hd, hc, hn⟩ := h
            subst hj
            constructor
            · intro _
              rfl
            · intro j1 hj1
              simp at hj1
      · have hfind2 : findBreakable rest L = some blk0 := by
          simpa [findBreakable, hidx] using hfind
        cases hrec : breakWalk rest L lastId with
        | none =>
            simp [breakWalk, hidx, hrec] at h
        | some val =>
            obtain ⟨j2, f2, d2, rest2, n2⟩ := val
            simp [breakWalk, hidx, hrec] at h
            obtain ⟨hj, hf, hd, hc, hn⟩ := h
            subst hj
            exact ih lastId j2 f2 d2 rest2 n2 blk0 hrec hfind2

theorem BreakDestination_stable (b : FlowGraphBuilder) (L : Int)
    (j : JoinEntryInstr) (f : List TryFinallyBlock) (d : Int)
    (b2 : FlowGraphBuilder)
    (h : BreakDestination b L = some (j, f, d, b2)) :
    BreakDestination b2 L = some (j, f, d, b2) := by
  unfold BreakDestination at h ⊢
  cases hw : breakWalk b.breakable_block_ L b.last_used_block_id_ with
  | none => rw [hw] at h; cases h
  | some val =>
      obtain ⟨j1, f1, d1, c1, n1⟩ := val
      rw [hw] at h
      simp only [Option.some.injEq, Prod.mk.injEq] at h
      obtain ⟨hj, hf, hd, hb⟩ := h
      subst hj hf hd hb
      have hw2 := breakWalk_stable L b.breakable_block_
        b.last_used_block_id_ j1 f1 d1 c1 n1 hw
      simp only
      rw [hw2]

theorem breakWalk_missing (L : Int) :
    ∀ (chain : List BreakableBlock) (lastId : Int),
      (∀ blk ∈ chain, blk.index_ ≠ L) →
      breakWalk chain L lastId = none := by
  intro chain
  induction chain with
  | nil => intro lastId _; rfl
  | cons blk rest ih =>
      intro lastId h
      have hidx : blk.index_ ≠ L := h blk (by simp)
      have hrec := ih lastId (fun x hx => h x (by simp [hx]))
      simp [breakWalk, hidx, hrec]

/-- C1: once a break resolution for label index `L` has produced a join
node `j`, the node is cached in the `destination_` field of the resolved
record, any number of further resolutions for `L` return exactly `j`
leaving the builder unchanged (so all `N` resolutions are
reference-equal), the node is created fresh on a first resolution (when
the record had no cached destination), and a resolution finding a cached
destination returns it. -/
theorem BreakableBlock_break_destination_cached (b : FlowGraphBuilder)
    (L : Int) (j : JoinEntryInstr) (f : List TryFinallyBlock) (d : Int)
    (b2 : FlowGraphBuilder)
    (h : BreakDestination b L = some (j, f, d, b2)) :
    (∀ n : Nat,
      BreakDestination ((breakStep L)^[n] b2) L = some (j, f, d, b2)) ∧
    (∃ blk2, findBreakable b2.breakable_block_ L = some blk2 ∧
      blk2.destination_ = some j) ∧
    (∀ blk0, findBreakable b.breakable_block_ L = some blk0 →
      blk0.destination_ = none →
      j = { block_id := b.last_used_block_id_ + 1,
            try_index := blk0.try_index_ }) ∧
    (∀ blk0 j0, findBreakable b.breakable_block_ L = some blk0 →
      blk0.destination_ = some j0 → j = j0) := by
  have hst := BreakDestination_stable b L j f d b2 h
  have hw : ∃ c1 n1,
      breakWalk b.breakable_block_ L b.last_used_block_id_ =
        some (j, f, d, c1, n1) ∧
      b2 = { b with breakable_block_ := c1, last_used_block_id_ := n1 } := by
    unfold BreakDestination at h
    cases hw0 : breakWalk b.breakable_block_ L b.last_used_block_id_ with
    | none => rw [hw0] at h; cases h
    | some val =>
        obtain ⟨j1, f1, d1, c1, n1⟩ := val
        rw [hw0] at h
        simp only [Option.some.injEq, Prod.mk.injEq] at h
        obtain ⟨hj, hf, hd, hb⟩ := h
        subst hj hf hd
        exact ⟨c1, n1, rfl, hb.symm⟩
  obtain ⟨c1, n1, hw1, hb2⟩ := hw
  refine ⟨?_, ?_, ?_, ?_⟩
  · intro n
    have hfix : breakStep L b2 = b2 := by
      simp [breakStep, hst]
    rw [Function.iterate_fixed hfix n]
    exact hst
  · have := breakWalk_cached L b.breakable_block_ b.last_used_block_id_
      j f d c1 n1 hw1
    rw [hb2]
    simpa using this
  · intro blk0 hfind hnone
    exact (breakWalk_creation L b.breakable_block_ b.last_used_block_id_
      j f d c1 n1 blk0 hw1 hfind).1 hnone
  · intro blk0 j0 hfind hsome
    exact (breakWalk_creation L b.breakable_block_ b.last_used_block_id_
      j f d c1 n1 blk0 hw1 hfind).2 j0 hsome

/-- Witness for C1: on a concrete builder with one breakable block, a
second and third resolution after the first return the cached join node
and leave the builder fixed. -/
theorem BreakableBlock_break_destination_cached_witness :
    BreakDestination ((breakStep 0)^[2] sampleBroken) 0 =
      some (sampleJoin, [], 0, sampleBroken) :=
  (BreakableBlock_break_destination_cached sampleBreakable 0 sampleJoin
    [] 0 sampleBroken (by decide)).1 2

/-- C9: a break resolution whose label index matches no record in the
breakable chain walks off the end of the chain and faults (the walk
dereferences the null outer pointer; no join node is ever returned). -/
theorem BreakDestination_missing_label_faults (b : FlowGraphBuilder)
    (L : Int) (h : ∀ blk ∈ b.breakable_block_, blk.index_ ≠ L) :
    BreakDestination b L = none := by
  unfold BreakDestination
  rw [breakWalk_missing L b.breakable_block_ b.last_used_block_id_ h]

/-- Witness for C9: resolving label index 5 on a builder whose only
breakable block has index 0 faults. -/
theorem BreakDestination_missing_label_faults_witness :
    BreakDestination sampleBreakable 5 = none :=
  BreakDestination_missing_label_faults sampleBreakable 5 (by decide)

/-- C2: for two nested switches with case counts `c0` (outer) and `c1`
(inner) entered on a builder with no enclosing switch, the inner block
records depth offset `c0` and the outer block 0 — each the sum of the
case counts of its enclosing switches, a property every switch push
preserves — and resolving an absolute target `t` from the inner block
returns the join destination for relative case `t - c0` of the inner
switch when `c0 <= t < c0 + c1`, and the join destination for relative
case `t` of the outer switch (with the outer block's recorded try-finally
pointer and context depth) when `0 <= t < c0`. -/
theorem SwitchBlock_nested_destination (b : FlowGraphBuilder)
    (c0 c1 t lastId : Int) (hb : b.switch_block_ = []) :
    (pushSwitchBlock (pushSwitchBlock b c0) c1).switch_block_ =
      [innerSwitchBlock b c0 c1, outerSwitchBlock b c0] ∧
    (c0 ≤ t → t < c0 + c1 →
      SwitchBlock.Destination
          [innerSwitchBlock b c0 c1, outerSwitchBlock b c0] t lastId =
        some (SwitchBlock.DestinationDirect (innerSwitchBlock b c0 c1)
          [outerSwitchBlock b c0] (t - c0) lastId)) ∧
    (0 ≤ t → t < c0 →
      SwitchBlock.Destination
          [innerSwitchBlock b c0 c1, outerSwitchBlock b c0] t lastId =
        some
          ((SwitchBlock.EnsureDestination (outerSwitchBlock b c0) t
              lastId).1,
           b.try_finally_block_, b.context_depth_,
           [innerSwitchBlock b c0 c1,
            (SwitchBlock.EnsureDestination (outerSwitchBlock b c0) t
              lastId).2.1],
           (SwitchBlock.EnsureDestination (outerSwitchBlock b c0) t
              lastId).2.2)) ∧
    (∀ (c : Int) (b2 : FlowGraphBuilder),
      switchDepthInv b2.switch_block_ →
      switchDepthInv (pushSwitchBlock b2 c).switch_block_) := by
  refine ⟨?_, ?_, ?_, ?_⟩
  · simp [pushSwitchBlock, hb, outerSwitchBlock, innerSwitchBlock,
      FlowGraphBuilder.CurrentTryIndex]
  · intro ht1 ht2
    have hng : ¬ c0 > t := by omega
    simp [SwitchBlock.Destination, SwitchBlock.DestinationDirect,
      SwitchBlock.EnsureDestination, IntMapLookup, BuildJoinEntry,
      innerSwitchBlock, outerSwitchBlock, hng]
  · intro ht0 htc
    have hgt : c0 > t := by omega
    have hng : ¬ (0 : Int) > t := by omega
    simp [SwitchBlock.Destination, SwitchBlock.DestinationDirect,
      SwitchBlock.EnsureDestination, IntMapLookup, BuildJoinEntry,
      innerSwitchBlock, outerSwitchBlock, hgt, hng]
  · intro c b2 hinv
    cases hsw : b2.switch_block_ with
    | nil =>
        simp [pushSwitchBlock, hsw, switchDepthInv, sumCaseCounts]
    | cons outer rest =>
        rw [hsw] at hinv
        have h1 : outer.depth_ = sumCaseCounts rest ∧
            switchDepthInv rest := hinv
        simp only [pushSwitchBlock, hsw, switchDepthInv, sumCaseCounts]
        exact ⟨by omega, hinv⟩

/-- Witness for C2: with case counts 2 (outer) and 3 (inner), absolute
target 3 resolves to relative case 1 of the inner switch. -/
theorem SwitchBlock_nested_destination_witness :
    SwitchBlock.Destination
        [innerSwitchBlock sampleBuilder 2 3,
         outerSwitchBlock sampleBuilder 2] 3 0 =
      some (SwitchBlock.DestinationDirect
        (innerSwitchBlock sampleBuilder 2 3)
        [outerSwitchBlock sampleBuilder 2] (3 - 2) 0) :=
  (SwitchBlock_nested_destination sampleBuilder 2 3 3 0 rfl).2.1
    (by decide) (by decide)

/-- C10: for a relative case number `n` with `0 <= n < case_count`, the
absolute-addressing resolution at target `depth_ + n` on the block's
chain returns exactly the tuple of the direct relative resolution at
`n`: the same join node, the same outer-finally pointer and context
depth, the same updated chain and the same allocation counter. -/
theorem Destination_direct_equiv (blk : SwitchBlock)
    (rest : List SwitchBlock) (case_num lastId : Int)
    (h0 : 0 ≤ case_num) (h1 : case_num < blk.case_count_) :
    SwitchBlock.Destination (blk :: rest) (blk.depth_ + case_num) lastId =
      some (SwitchBlock.DestinationDirect blk rest case_num lastId) := by
  have hng : ¬ blk.depth_ > blk.depth_ + case_num := by omega
  have heq : blk.depth_ + case_num - blk.depth_ = case_num := by omega
  rcases hsplit : blk.EnsureDestination case_num lastId with ⟨j, blk2, n⟩
  simp only [SwitchBlock.Destination, SwitchBlock.DestinationDirect,
    if_neg hng, heq, hsplit]

/-- Witness for C10 at relative case 1 of a concrete inner switch with
three cases sitting at depth offset 2. -/
theorem Destination_direct_equiv_witness :
    SwitchBlock.Destination
        [innerSwitchBlock sampleBuilder 2 3,
         outerSwitchBlock sampleBuilder 2]
        ((innerSwitchBlock sampleBuilder 2 3).depth_ + 1) 0 =
      some (SwitchBlock.DestinationDirect
        (innerSwitchBlock sampleBuilder 2 3)
        [outerSwitchBlock sampleBuilder 2] 1 0) :=
  Destination_direct_equiv (innerSwitchBlock sampleBuilder 2 3)
    [outerSwitchBlock sampleBuilder 2] 1 0 (by decide) (by decide)
